import Mathlib

/-
Verification of the execution-language front end test harness of the
terrier repository (AstDumpTest). The harness source provides the
kind-extraction pass, the pipeline driver GenerateAst and the dump
checker CheckDump; the scanner, parser, semantic analyzer and dumper
are collaborators whose behavior is modelled from the specification.
-/

/-- Executable prefix test on character lists (needle, hay). -/
def isPrefX : List Char → List Char → Bool
  | [], _ => true
  | _ :: _, [] => false
  | a :: as, b :: bs => if a = b then isPrefX as bs else false

/-- Executable substring test on character lists: subX needle hay is true
when needle occurs contiguously inside hay. -/
def subX (n : List Char) : List Char → Bool
  | [] => n.isEmpty
  | c :: hs => isPrefX n (c :: hs) || subX n hs

/-- The substring check used by CheckDump: the C++ test asserts
dump.find(token) is not npos, which is containment of the token text
in the dump text. -/
def sContains (hay needle : String) : Bool := subX needle.data hay.data

mutual

/-- Modelled from the spec: the closed set of AST node kinds of the
execution language (declarations, statements, expressions, type
representations), as enumerated by the kind-extraction pass of the
test harness.  Children are held in AstList and AstOpt so that all
recursion over the tree is structural. -/
inductive Ast where
  | file (decls : AstList)
  | functionDecl (name : String) (fn : Ast)
  | structDecl (name : String) (ty : Ast)
  | variableDecl (name : String) (ty : AstOpt) (ini : AstOpt)
  | fieldDecl (name : String) (ty : Ast)
  | blockStmt (stmts : AstList)
  | declStmt (d : Ast)
  | expressionStmt (e : Ast)
  | ifStmt (cond : Ast) (thenS : Ast) (elseS : AstOpt)
  | forStmt (ini : AstOpt) (cond : AstOpt) (nxt : AstOpt) (body : Ast)
  | forInStmt (target : Ast) (iter : Ast) (body : Ast)
  | returnStmt (ret : AstOpt)
  | assignmentStmt (dst : Ast) (src : Ast)
  | identifierExpr (name : String)
  | litExpr (lit : String)
  | unaryOpExpr (op : String) (e : Ast)
  | binaryOpExpr (op : String) (lhs : Ast) (rhs : Ast)
  | comparisonOpExpr (op : String) (lhs : Ast) (rhs : Ast)
  | callExpr (fn : Ast) (args : AstList)
  | implicitCastExpr (e : Ast)
  | indexExpr (obj : Ast) (idx : Ast)
  | functionLitExpr (ty : Ast) (body : Ast)
  | functionTypeRepr (params : AstList) (ret : Ast)
  | pointerTypeRepr (base : Ast)
  | arrayTypeRepr (len : AstOpt) (elem : Ast)
  | structTypeRepr (fields : AstList)

/-- A list of AST nodes (children sequences). -/
inductive AstList where
  | nil
  | cons (head : Ast) (tail : AstList)

/-- An optional AST node (absent child slots). -/
inductive AstOpt where
  | none
  | some (a : Ast)

end

/-- The kind names registered in ExtractKindNames via
EXTRACT_KINDNAME_METHOD (src lines 47 to 69).  FieldDecl,
FunctionTypeRepr and IdentifierExpr are commented out there
(src lines 43 to 45) and hence absent. -/
def registeredNames : List String :=
  ["FunctionDecl", "ArrayTypeRepr", "BlockStmt", "StructDecl",
   "VariableDecl", "UnaryOpExpr", "ReturnStmt", "CallExpr",
   "ImplicitCastExpr", "AssignmentStmt", "File", "FunctionLitExpr",
   "ForStmt", "ForInStmt", "BinaryOpExpr", "LitExpr", "StructTypeRepr",
   "DeclStmt", "PointerTypeRepr", "ComparisonOpExpr", "IfStmt",
   "ExpressionStmt", "IndexExpr"]

mutual

/-- The multiset of kind names of registered nodes present in a tree,
in visit order (kind name of a registered node first, then its
children): the pre-deduplication trace of the extraction pass.
The three unregistered kinds contribute only their children. -/
def kindsPresent : Ast → List String
  | .file ds => "File" :: kindsL ds
  | .functionDecl _ f => "FunctionDecl" :: kindsPresent f
  | .structDecl _ t => "StructDecl" :: kindsPresent t
  | .variableDecl _ t i => "VariableDecl" :: (kindsO t ++ kindsO i)
  | .fieldDecl _ t => kindsPresent t
  | .blockStmt ss => "BlockStmt" :: kindsL ss
  | .declStmt d => "DeclStmt" :: kindsPresent d
  | .expressionStmt e => "ExpressionStmt" :: kindsPresent e
  | .ifStmt c t e => "IfStmt" :: (kindsPresent c ++ kindsPresent t ++ kindsO e)
  | .forStmt i c n b => "ForStmt" :: (kindsO i ++ kindsO c ++ kindsO n ++ kindsPresent b)
  | .forInStmt t it b => "ForInStmt" :: (kindsPresent t ++ kindsPresent it ++ kindsPresent b)
  | .returnStmt r => "ReturnStmt" :: kindsO r
  | .assignmentStmt d s => "AssignmentStmt" :: (kindsPresent d ++ kindsPresent s)
  | .identifierExpr _ => []
  | .litExpr _ => ["LitExpr"]
  | .unaryOpExpr _ e => "UnaryOpExpr" :: kindsPresent e
  | .binaryOpExpr _ l r => "BinaryOpExpr" :: (kindsPresent l ++ kindsPresent r)
  | .comparisonOpExpr _ l r => "ComparisonOpExpr" :: (kindsPresent l ++ kindsPresent r)
  | .callExpr f a => "CallExpr" :: (kindsPresent f ++ kindsL a)
  | .implicitCastExpr e => "ImplicitCastExpr" :: kindsPresent e
  | .indexExpr o i => "IndexExpr" :: (kindsPresent o ++ kindsPresent i)
  | .functionLitExpr t b => "FunctionLitExpr" :: (kindsPresent t ++ kindsPresent b)
  | .functionTypeRepr ps r => kindsL ps ++ kindsPresent r
  | .pointerTypeRepr b => "PointerTypeRepr" :: kindsPresent b
  | .arrayTypeRepr l e => "ArrayTypeRepr" :: (kindsO l ++ kindsPresent e)
  | .structTypeRepr fs => "StructTypeRepr" :: kindsL fs

/-- kindsPresent over a child list. -/
def kindsL : AstList → List String
  | .nil => []
  | .cons a r => kindsPresent a ++ kindsL r

/-- kindsPresent over an optional child. -/
def kindsO : AstOpt → List String
  | .none => []
  | .some a => kindsPresent a

end

mutual

/-- The literal texts of a tree: every identifier name (declared names
and identifier expressions) and every constant literal text, exactly
as embedded by the parser from the source. -/
def litTexts : Ast → List String
  | .file ds => litL ds
  | .functionDecl n f => n :: litTexts f
  | .structDecl n t => n :: litTexts t
  | .variableDecl n t i => n :: (litO t ++ litO i)
  | .fieldDecl n t => n :: litTexts t
  | .blockStmt ss => litL ss
  | .declStmt d => litTexts d
  | .expressionStmt e => litTexts e
  | .ifStmt c t e => litTexts c ++ litTexts t ++ litO e
  | .forStmt i c n b => litO i ++ litO c ++ litO n ++ litTexts b
  | .forInStmt t it b => litTexts t ++ litTexts it ++ litTexts b
  | .returnStmt r => litO r
  | .assignmentStmt d s => litTexts d ++ litTexts s
  | .identifierExpr n => [n]
  | .litExpr s => [s]
  | .unaryOpExpr _ e => litTexts e
  | .binaryOpExpr _ l r => litTexts l ++ litTexts r
  | .comparisonOpExpr _ l r => litTexts l ++ litTexts r
  | .callExpr f a => litTexts f ++ litL a
  | .implicitCastExpr e => litTexts e
  | .indexExpr o i => litTexts o ++ litTexts i
  | .functionLitExpr t b => litTexts t ++ litTexts b
  | .functionTypeRepr ps r => litL ps ++ litTexts r
  | .pointerTypeRepr b => litTexts b
  | .arrayTypeRepr l e => litO l ++ litTexts e
  | .structTypeRepr fs => litL fs

/-- litTexts over a child list. -/
def litL : AstList → List String
  | .nil => []
  | .cons a r => litTexts a ++ litL r

/-- litTexts over an optional child. -/
def litO : AstOpt → List String
  | .none => []
  | .some a => litTexts a

end

/-- One rendered node: parenthesized kind name followed by its payload. -/
def nodeStr (kname inner : String) : String :=
  "(" ++ kname ++ " " ++ inner ++ ")"

mutual

/-- Modelled from the spec: AstDump::Dump is absent from the sources;
per the dumper contract it produces a textual rendering in which the
canonical name of every node kind present and the exact text of every
identifier and constant appear verbatim. -/
def astDump : Ast → String
  | .file ds => nodeStr "File" (dumpL ds)
  | .functionDecl n f => nodeStr "FunctionDecl" (n ++ " " ++ astDump f)
  | .structDecl n t => nodeStr "StructDecl" (n ++ " " ++ astDump t)
  | .variableDecl n t i => nodeStr "VariableDecl" (n ++ " " ++ (dumpO t ++ dumpO i))
  | .fieldDecl n t => nodeStr "FieldDecl" (n ++ " " ++ astDump t)
  | .blockStmt ss => nodeStr "BlockStmt" (dumpL ss)
  | .declStmt d => nodeStr "DeclStmt" (astDump d)
  | .expressionStmt e => nodeStr "ExpressionStmt" (astDump e)
  | .ifStmt c t e => nodeStr "IfStmt" (astDump c ++ astDump t ++ dumpO e)
  | .forStmt i c n b => nodeStr "ForStmt" (dumpO i ++ dumpO c ++ dumpO n ++ astDump b)
  | .forInStmt t it b => nodeStr "ForInStmt" (astDump t ++ astDump it ++ astDump b)
  | .returnStmt r => nodeStr "ReturnStmt" (dumpO r)
  | .assignmentStmt d s => nodeStr "AssignmentStmt" (astDump d ++ astDump s)
  | .identifierExpr n => nodeStr "IdentifierExpr" n
  | .litExpr s => nodeStr "LitExpr" s
  | .unaryOpExpr op e => nodeStr "UnaryOpExpr" (op ++ " " ++ astDump e)
  | .binaryOpExpr op l r => nodeStr "BinaryOpExpr" (op ++ " " ++ (astDump l ++ astDump r))
  | .comparisonOpExpr op l r => nodeStr "ComparisonOpExpr" (op ++ " " ++ (astDump l ++ astDump r))
  | .callExpr f a => nodeStr "CallExpr" (astDump f ++ dumpL a)
  | .implicitCastExpr e => nodeStr "ImplicitCastExpr" (astDump e)
  | .indexExpr o i => nodeStr "IndexExpr" (astDump o ++ astDump i)
  | .functionLitExpr t b => nodeStr "FunctionLitExpr" (astDump t ++ astDump b)
  | .functionTypeRepr ps r => nodeStr "FunctionTypeRepr" (dumpL ps ++ astDump r)
  | .pointerTypeRepr b => nodeStr "PointerTypeRepr" (astDump b)
  | .arrayTypeRepr l e => nodeStr "ArrayTypeRepr" (dumpO l ++ astDump e)
  | .structTypeRepr fs => nodeStr "StructTypeRepr" (dumpL fs)

/-- astDump over a child list. -/
def dumpL : AstList → String
  | .nil => ""
  | .cons a r => astDump a ++ dumpL r

/-- astDump over an optional child. -/
def dumpO : AstOpt → String
  | .none => ""
  | .some a => astDump a

end

/-- Insertion into the harness kind-name set: std::set semantics, a
name already present is not added again. -/
def sinsert (s : List String) (x : String) : List String :=
  if x ∈ s then s else s ++ [x]

mutual

/-- The kind-extraction pass of the harness (ExtractKindNames, src
lines 22 to 79): every node whose Visit method is registered inserts
its kind name into the shared set and then descends into its
children; the three unregistered kinds (FieldDecl, FunctionTypeRepr,
IdentifierExpr, src lines 43 to 45) fall back to the default
traversal, which only descends. -/
def extractA : Ast → List String → List String
  | .file ds, acc => extractL ds (sinsert acc "File")
  | .functionDecl _ f, acc => extractA f (sinsert acc "FunctionDecl")
  | .structDecl _ t, acc => extractA t (sinsert acc "StructDecl")
  | .variableDecl _ t i, acc => extractO i (extractO t (sinsert acc "VariableDecl"))
  | .fieldDecl _ t, acc => extractA t acc
  | .blockStmt ss, acc => extractL ss (sinsert acc "BlockStmt")
  | .declStmt d, acc => extractA d (sinsert acc "DeclStmt")
  | .expressionStmt e, acc => extractA e (sinsert acc "ExpressionStmt")
  | .ifStmt c t e, acc => extractO e (extractA t (extractA c (sinsert acc "IfStmt")))
  | .forStmt i c n b, acc =>
      extractA b (extractO n (extractO c (extractO i (sinsert acc "ForStmt"))))
  | .forInStmt t it b, acc =>
      extractA b (extractA it (extractA t (sinsert acc "ForInStmt")))
  | .returnStmt r, acc => extractO r (sinsert acc "ReturnStmt")
  | .assignmentStmt d s, acc => extractA s (extractA d (sinsert acc "AssignmentStmt"))
  | .identifierExpr _, acc => acc
  | .litExpr _, acc => sinsert acc "LitExpr"
  | .unaryOpExpr _ e, acc => extractA e (sinsert acc "UnaryOpExpr")
  | .binaryOpExpr _ l r, acc => extractA r (extractA l (sinsert acc "BinaryOpExpr"))
  | .comparisonOpExpr _ l r, acc => extractA r (extractA l (sinsert acc "ComparisonOpExpr"))
  | .callExpr f a, acc => extractL a (extractA f (sinsert acc "CallExpr"))
  | .implicitCastExpr e, acc => extractA e (sinsert acc "ImplicitCastExpr")
  | .indexExpr o i, acc => extractA i (extractA o (sinsert acc "IndexExpr"))
  | .functionLitExpr t b, acc => extractA b (extractA t (sinsert acc "FunctionLitExpr"))
  | .functionTypeRepr ps r, acc => extractA r (extractL ps acc)
  | .pointerTypeRepr b, acc => extractA b (sinsert acc "PointerTypeRepr")
  | .arrayTypeRepr l e, acc => extractA e (extractO l (sinsert acc "ArrayTypeRepr"))
  | .structTypeRepr fs, acc => extractL fs (sinsert acc "StructTypeRepr")

/-- extractA over a child list. -/
def extractL : AstList → List String → List String
  | .nil, acc => acc
  | .cons a r, acc => extractL r (extractA a acc)

/-- extractA over an optional child. -/
def extractO : AstOpt → List String → List String
  | .none, acc => acc
  | .some a, acc => extractA a acc

end

/-- ExtractKindNames run from a root with an empty set, followed by
GetKindNames (src lines 75 and 133 to 135). -/
def extractKindNames (root : Ast) : List String := extractA root []

/-- Token kinds of the execution language scanner. -/
inductive TokKind where
  | ident | num
  | kwFun | kwIf | kwElse | kwFor | kwReturn
  | lparen | rparen | lbrace | rbrace | colon | comma | arrow
  | lt | le | gt | ge | eqeq | neq
  | plus | minus | star | slash | assign
  | invalid
deriving DecidableEq

/-- A token: kind plus literal text. -/
structure Tok where
  kind : TokKind
  text : String
deriving DecidableEq

/-- Identifier start characters: letters and underscore. -/
def isIdentStartC (c : Char) : Bool := c.isAlpha || c = '_'

/-- Identifier continuation characters. -/
def isIdentC (c : Char) : Bool := c.isAlphanum || c = '_'

/-- Keyword classification: the fixed keyword set takes priority over
identifier classification. -/
def keywordKind (s : String) : TokKind :=
  if s = "fun" then TokKind.kwFun
  else if s = "if" then TokKind.kwIf
  else if s = "else" then TokKind.kwElse
  else if s = "for" then TokKind.kwFor
  else if s = "return" then TokKind.kwReturn
  else TokKind.ident

/-- Modelled from the spec: the scanner is absent from the sources; it
converts source text into a token sequence, recognizing identifiers
and keywords, integer literals and the fixed operator and punctuation
set, and emitting an invalid token on an unrecognized character
rather than aborting.  Fuel bounds the loop; every step consumes at
least one character, so data.length + 1 steps always suffice. -/
def scanAux : Nat → List Char → List Tok
  | 0, _ => []
  | _ + 1, [] => []
  | fuel + 1, c :: cs =>
    if c.isWhitespace then scanAux fuel cs
    else if isIdentStartC c then
      let ids := (c :: cs).takeWhile isIdentC
      let rest := (c :: cs).dropWhile isIdentC
      let s := String.mk ids
      Tok.mk (keywordKind s) s :: scanAux fuel rest
    else if c.isDigit then
      let ds := (c :: cs).takeWhile Char.isDigit
      let rest := (c :: cs).dropWhile Char.isDigit
      Tok.mk TokKind.num (String.mk ds) :: scanAux fuel rest
    else if c = '(' then Tok.mk TokKind.lparen "(" :: scanAux fuel cs
    else if c = ')' then Tok.mk TokKind.rparen ")" :: scanAux fuel cs
    else if c = '{' then Tok.mk TokKind.lbrace (String.mk [c]) :: scanAux fuel cs
    else if c = '}' then Tok.mk TokKind.rbrace (String.mk [c]) :: scanAux fuel cs
    else if c = ':' then Tok.mk TokKind.colon ":" :: scanAux fuel cs
    else if c = ',' then Tok.mk TokKind.comma "," :: scanAux fuel cs
    else if c = '-' then
      match cs with
      | '>' :: cs2 => Tok.mk TokKind.arrow "->" :: scanAux fuel cs2
      | _ => Tok.mk TokKind.minus "-" :: scanAux fuel cs
    else if c = '<' then
      match cs with
      | '=' :: cs2 => Tok.mk TokKind.le "<=" :: scanAux fuel cs2
      | _ => Tok.mk TokKind.lt "<" :: scanAux fuel cs
    else if c = '>' then
      match cs with
      | '=' :: cs2 => Tok.mk TokKind.ge ">=" :: scanAux fuel cs2
      | _ => Tok.mk TokKind.gt ">" :: scanAux fuel cs
    else if c = '=' then
      match cs with
      | '=' :: cs2 => Tok.mk TokKind.eqeq "==" :: scanAux fuel cs2
      | _ => Tok.mk TokKind.assign "=" :: scanAux fuel cs
    else if c = '!' then
      match cs with
      | '=' :: cs2 => Tok.mk TokKind.neq "!=" :: scanAux fuel cs2
      | _ => Tok.mk TokKind.invalid (String.mk [c]) :: scanAux fuel cs
    else if c = '+' then Tok.mk TokKind.plus "+" :: scanAux fuel cs
    else if c = '*' then Tok.mk TokKind.star "*" :: scanAux fuel cs
    else if c = '/' then Tok.mk TokKind.slash "/" :: scanAux fuel cs
    else Tok.mk TokKind.invalid (String.mk [c]) :: scanAux fuel cs

/-- Scan a whole source buffer. -/
def scanTokens (src : String) : List Tok :=
  scanAux (src.data.length + 1) src.data

/-- Result of one parsing function: node built, remaining tokens,
diagnostics appended to the shared error reporter. -/
abbrev PRes (α : Type) := α × List Tok × List String

/-- Consume one expected token, else report a diagnostic and leave the
stream alone (panic-mode recovery resumes at the caller). -/
def expectTok (k : TokKind) (msg : String) (ts : List Tok) :
    List Tok × List String :=
  match ts with
  | [] => ([], [msg])
  | t :: r => if t.kind = k then (r, []) else (t :: r, [msg])

/-- Comparison operator token kinds. -/
def isCmpKind (k : TokKind) : Bool :=
  k = TokKind.lt || k = TokKind.le || k = TokKind.gt ||
  k = TokKind.ge || k = TokKind.eqeq || k = TokKind.neq

mutual

/-- Modelled from the spec: the recursive-descent parser is absent from
the sources.  Primary expressions: integer literals, identifiers,
parenthesized expressions.  On a token that cannot begin the rule the
parser reports expected-versus-found and recovers. -/
def parsePrimary : Nat → List Tok → PRes Ast
  | 0, ts => (Ast.litExpr "?error", ts, ["out of fuel"])
  | _ + 1, [] => (Ast.litExpr "?error", [], ["unexpected end of input"])
  | fuel + 1, tk :: ts =>
    match tk with
    | ⟨TokKind.num, s⟩ => (Ast.litExpr s, ts, [])
    | ⟨TokKind.ident, s⟩ => (Ast.identifierExpr s, ts, [])
    | ⟨TokKind.lparen, _⟩ =>
      let (e, ts1, e1) := parseExpr fuel ts
      let (ts2, e2) := expectTok TokKind.rparen "expected closing paren" ts1
      (e, ts2, e1 ++ e2)
    | t => (Ast.litExpr "?error", t :: ts, ["expected expression"])

/-- Left-associative multiplicative chain. -/
def parseMulRest : Nat → Ast → List Tok → PRes Ast
  | 0, lhs, ts => (lhs, ts, ["out of fuel"])
  | fuel + 1, lhs, ts =>
    match ts with
    | ⟨TokKind.star, s⟩ :: ts1 =>
      let (rhs, ts2, e1) := parsePrimary fuel ts1
      let (res, ts3, e2) := parseMulRest fuel (Ast.binaryOpExpr s lhs rhs) ts2
      (res, ts3, e1 ++ e2)
    | ⟨TokKind.slash, s⟩ :: ts1 =>
      let (rhs, ts2, e1) := parsePrimary fuel ts1
      let (res, ts3, e2) := parseMulRest fuel (Ast.binaryOpExpr s lhs rhs) ts2
      (res, ts3, e1 ++ e2)
    | _ => (lhs, ts, [])

/-- Multiplicative level. -/
def parseMul : Nat → List Tok → PRes Ast
  | 0, ts => (Ast.litExpr "?error", ts, ["out of fuel"])
  | fuel + 1, ts =>
    let (p, ts1, e1) := parsePrimary fuel ts
    let (r, ts2, e2) := parseMulRest fuel p ts1
    (r, ts2, e1 ++ e2)

/-- Left-associative additive chain. -/
def parseAddRest : Nat → Ast → List Tok → PRes Ast
  | 0, lhs, ts => (lhs, ts, ["out of fuel"])
  | fuel + 1, lhs, ts =>
    match ts with
    | ⟨TokKind.plus, s⟩ :: ts1 =>
      let (rhs, ts2, e1) := parseMul fuel ts1
      let (res, ts3, e2) := parseAddRest fuel (Ast.binaryOpExpr s lhs rhs) ts2
      (res, ts3, e1 ++ e2)
    | ⟨TokKind.minus, s⟩ :: ts1 =>
      let (rhs, ts2, e1) := parseMul fuel ts1
      let (res, ts3, e2) := parseAddRest fuel (Ast.binaryOpExpr s lhs rhs) ts2
      (res, ts3, e1 ++ e2)
    | _ => (lhs, ts, [])

/-- Additive level. -/
def parseAdd : Nat → List Tok → PRes Ast
  | 0, ts => (Ast.litExpr "?error", ts, ["out of fuel"])
  | fuel + 1, ts =>
    let (p, ts1, e1) := parseMul fuel ts
    let (r, ts2, e2) := parseAddRest fuel p ts1
    (r, ts2, e1 ++ e2)

/-- Full expression: additive operands joined by an optional comparison
operator, which always builds a ComparisonOpExpr node. -/
def parseExpr : Nat → List Tok → PRes Ast
  | 0, ts => (Ast.litExpr "?error", ts, ["out of fuel"])
  | fuel + 1, ts =>
    let (lhs, ts1, e1) := parseAdd fuel ts
    match ts1 with
    | ⟨k, s⟩ :: ts2 =>
      if isCmpKind k then
        let (rhs, ts3, e2) := parseAdd fuel ts2
        (Ast.comparisonOpExpr s lhs rhs, ts3, e1 ++ e2)
      else (lhs, ⟨k, s⟩ :: ts2, e1)
    | [] => (lhs, [], e1)

/-- A braced statement block. -/
def parseBlock : Nat → List Tok → PRes Ast
  | 0, ts => (Ast.blockStmt AstList.nil, ts, ["out of fuel"])
  | fuel + 1, ts =>
    match ts with
    | ⟨TokKind.lbrace, _⟩ :: ts1 =>
      let (ss, ts2, e1) := parseStmtList fuel ts1
      let (ts3, e2) := expectTok TokKind.rbrace "expected closing brace" ts2
      (Ast.blockStmt ss, ts3, e1 ++ e2)
    | _ => (Ast.blockStmt AstList.nil, ts, ["expected block"])

/-- Statements until a closing brace or end of input. -/
def parseStmtList : Nat → List Tok → PRes AstList
  | 0, ts => (AstList.nil, ts, ["out of fuel"])
  | fuel + 1, ts =>
    match ts with
    | [] => (AstList.nil, [], [])
    | ⟨TokKind.rbrace, s⟩ :: ts1 => (AstList.nil, ⟨TokKind.rbrace, s⟩ :: ts1, [])
    | t :: ts1 =>
      let (s1, ts2, e1) := parseStmt fuel (t :: ts1)
      let (rest, ts3, e2) := parseStmtList fuel ts2
      (AstList.cons s1 rest, ts3, e1 ++ e2)

/-- One statement: if, for, return, block, assignment or expression. -/
def parseStmt : Nat → List Tok → PRes Ast
  | 0, ts => (Ast.blockStmt AstList.nil, ts, ["out of fuel"])
  | fuel + 1, ts =>
    match ts with
    | ⟨TokKind.kwIf, _⟩ :: ts1 => parseIfAfter fuel ts1
    | ⟨TokKind.kwFor, _⟩ :: ts1 =>
      let (ts2, e0) := expectTok TokKind.lparen "expected opening paren" ts1
      let (c, ts3, e1) := parseExpr fuel ts2
      let (ts4, e2) := expectTok TokKind.rparen "expected closing paren" ts3
      let (b, ts5, e3) := parseBlock fuel ts4
      (Ast.forStmt AstOpt.none (AstOpt.some c) AstOpt.none b, ts5,
       e0 ++ e1 ++ e2 ++ e3)
    | ⟨TokKind.kwReturn, _⟩ :: ts1 =>
      match ts1 with
      | ⟨TokKind.num, _⟩ :: _ =>
        let (e, ts2, e1) := parseExpr fuel ts1
        (Ast.returnStmt (AstOpt.some e), ts2, e1)
      | ⟨TokKind.ident, _⟩ :: _ =>
        let (e, ts2, e1) := parseExpr fuel ts1
        (Ast.returnStmt (AstOpt.some e), ts2, e1)
      | ⟨TokKind.lparen, _⟩ :: _ =>
        let (e, ts2, e1) := parseExpr fuel ts1
        (Ast.returnStmt (AstOpt.some e), ts2, e1)
      | _ => (Ast.returnStmt AstOpt.none, ts1, [])
    | ⟨TokKind.lbrace, s⟩ :: ts1 => parseBlock fuel (⟨TokKind.lbrace, s⟩ :: ts1)
    | _ =>
      let (e, ts1, e1) := parseExpr fuel ts
      match ts1 with
      | ⟨TokKind.assign, _⟩ :: ts2 =>
        let (r, ts3, e2) := parseExpr fuel ts2
        (Ast.assignmentStmt e r, ts3, e1 ++ e2)
      | _ => (Ast.expressionStmt e, ts1, e1)

/-- The remainder of an if statement after its keyword: parenthesized
condition, then block, optional else taking a block or a chained if. -/
def parseIfAfter : Nat → List Tok → PRes Ast
  | 0, ts => (Ast.blockStmt AstList.nil, ts, ["out of fuel"])
  | fuel + 1, ts =>
    let (ts1, e0) := expectTok TokKind.lparen "expected opening paren" ts
    let (c, ts2, e1) := parseExpr fuel ts1
    let (ts3, e2) := expectTok TokKind.rparen "expected closing paren" ts2
    let (thenB, ts4, e3) := parseBlock fuel ts3
    match ts4 with
    | ⟨TokKind.kwElse, _⟩ :: ⟨TokKind.kwIf, _⟩ :: ts5 =>
      let (ei, ts6, e4) := parseIfAfter fuel ts5
      (Ast.ifStmt c thenB (AstOpt.some ei), ts6, e0 ++ e1 ++ e2 ++ e3 ++ e4)
    | ⟨TokKind.kwElse, _⟩ :: ts5 =>
      let (eb, ts6, e4) := parseBlock fuel ts5
      (Ast.ifStmt c thenB (AstOpt.some eb), ts6, e0 ++ e1 ++ e2 ++ e3 ++ e4)
    | _ => (Ast.ifStmt c thenB AstOpt.none, ts4, e0 ++ e1 ++ e2 ++ e3)

/-- A type representation: a named type or a pointer type. -/
def parseType : Nat → List Tok → PRes Ast
  | 0, ts => (Ast.identifierExpr "?error", ts, ["out of fuel"])
  | fuel + 1, ts =>
    match ts with
    | ⟨TokKind.ident, s⟩ :: ts1 => (Ast.identifierExpr s, ts1, [])
    | ⟨TokKind.star, _⟩ :: ts1 =>
      let (b, ts2, e1) := parseType fuel ts1
      (Ast.pointerTypeRepr b, ts2, e1)
    | _ => (Ast.identifierExpr "?error", ts, ["expected type"])

/-- Comma-separated parameter declarations, stopping before the
closing paren. -/
def parseParams : Nat → List Tok → PRes AstList
  | 0, ts => (AstList.nil, ts, ["out of fuel"])
  | fuel + 1, ts =>
    match ts with
    | ⟨TokKind.rparen, s⟩ :: ts1 => (AstList.nil, ⟨TokKind.rparen, s⟩ :: ts1, [])
    | ⟨TokKind.ident, n⟩ :: ⟨TokKind.colon, _⟩ :: ts1 =>
      let (ty, ts2, e1) := parseType fuel ts1
      match ts2 with
      | ⟨TokKind.comma, _⟩ :: ts3 =>
        let (rest, ts4, e2) := parseParams fuel ts3
        (AstList.cons (Ast.fieldDecl n ty) rest, ts4, e1 ++ e2)
      | _ => (AstList.cons (Ast.fieldDecl n ty) AstList.nil, ts2, e1)
    | _ => (AstList.nil, ts, ["expected parameter"])

/-- One top-level declaration: a function declaration wrapping a
function literal built from a function type representation and a
body block.  Any other leading token is reported and skipped. -/
def parseDecl : Nat → List Tok → PRes Ast
  | 0, ts => (Ast.litExpr "?error", ts, ["out of fuel"])
  | fuel + 1, ts =>
    match ts with
    | ⟨TokKind.kwFun, _⟩ :: ⟨TokKind.ident, n⟩ :: ⟨TokKind.lparen, _⟩ :: ts1 =>
      let (ps, ts2, e1) := parseParams fuel ts1
      let (ts3, e2) := expectTok TokKind.rparen "expected closing paren" ts2
      let (ts4, e3) := expectTok TokKind.arrow "expected arrow" ts3
      let (rt, ts5, e4) := parseType fuel ts4
      let (body, ts6, e5) := parseBlock fuel ts5
      (Ast.functionDecl n
        (Ast.functionLitExpr (Ast.functionTypeRepr ps rt) body),
       ts6, e1 ++ e2 ++ e3 ++ e4 ++ e5)
    | _ :: ts1 => (Ast.litExpr "?error", ts1, ["expected declaration"])
    | [] => (Ast.litExpr "?error", [], ["unexpected end of input"])

/-- The top-level declaration sequence. -/
def parseDeclList : Nat → List Tok → PRes AstList
  | 0, ts => (AstList.nil, ts, ["out of fuel"])
  | fuel + 1, ts =>
    match ts with
    | [] => (AstList.nil, [], [])
    | t :: ts1 =>
      let (d, ts2, e1) := parseDecl fuel (t :: ts1)
      let (rest, ts3, e2) := parseDeclList fuel ts2
      (AstList.cons d rest, ts3, e1 ++ e2)

end

/-- Parser::Parse, modelled from the spec: builds a File node over the
declaration sequence; diagnostics go to the shared reporter.  The
fuel bound is generous; reaching it is itself reported, so an empty
diagnostic list means the parse ran to completion. -/
def parseProgram (ts : List Tok) : Ast × List String :=
  let fuel := ts.length * 8 + 64
  let (ds, _, errs) := parseDeclList fuel ts
  (Ast.file ds, errs)

/-- Resolved types of the semantic analyzer. -/
inductive Ty where
  | tyInt | tyBool | tyVoid | tyUnknown
deriving DecidableEq

/-- Modelled from the spec: resolution of a syntactic type
representation into a canonical type descriptor. -/
def resolveTy : Ast → Ty
  | .identifierExpr n =>
    if n = "int" then Ty.tyInt
    else if n = "int32" then Ty.tyInt
    else if n = "int64" then Ty.tyInt
    else if n = "bool" then Ty.tyBool
    else if n = "void" then Ty.tyVoid
    else Ty.tyUnknown
  | _ => Ty.tyUnknown

/-- Scope lookup, innermost first. -/
def lookupTy : List (String × Ty) → String → Option Ty
  | [], _ => Option.none
  | (m, t) :: r, n => if m = n then Option.some t else lookupTy r n

/-- Type of a constant literal text. -/
def litTy (s : String) : Ty :=
  if s = "true" then Ty.tyBool
  else if s = "false" then Ty.tyBool
  else if !s.data.isEmpty && s.data.all Char.isDigit then Ty.tyInt
  else Ty.tyUnknown

mutual

/-- Modelled from the spec: the semantic analyzer is absent from the
sources.  Expression checking resolves identifiers against the scope
chain (undefined identifier is a semantic error), requires both
operands of a binary arithmetic operator to be of the numeric type,
and gives comparison operators a boolean result while requiring
comparable operands.  Errors accumulate; the pass never stops. -/
def exprCheck : List (String × Ty) → Ast → Ty × List String
  | env, .identifierExpr n =>
    match lookupTy env n with
    | Option.some t => (t, [])
    | Option.none => (Ty.tyUnknown, ["undefined identifier " ++ n])
  | _, .litExpr s => (litTy s, [])
  | env, .binaryOpExpr _ l r =>
    let (tl, e1) := exprCheck env l
    let (tr, e2) := exprCheck env r
    match tl, tr with
    | Ty.tyInt, Ty.tyInt => (Ty.tyInt, e1 ++ e2)
    | _, _ => (Ty.tyUnknown, e1 ++ e2 ++ ["binary operator type mismatch"])
  | env, .comparisonOpExpr _ l r =>
    let (tl, e1) := exprCheck env l
    let (tr, e2) := exprCheck env r
    match tl, tr with
    | Ty.tyInt, Ty.tyInt => (Ty.tyBool, e1 ++ e2)
    | Ty.tyBool, Ty.tyBool => (Ty.tyBool, e1 ++ e2)
    | _, _ => (Ty.tyBool, e1 ++ e2 ++ ["comparison operand type mismatch"])
  | env, .unaryOpExpr _ e =>
    let (_, e1) := exprCheck env e
    (Ty.tyUnknown, e1)
  | env, .callExpr f a =>
    let (_, e1) := exprCheck env f
    (Ty.tyUnknown, e1 ++ exprCheckL env a)
  | env, .implicitCastExpr e => exprCheck env e
  | env, .indexExpr o i =>
    let (_, e1) := exprCheck env o
    let (_, e2) := exprCheck env i
    (Ty.tyUnknown, e1 ++ e2)
  | _, _ => (Ty.tyUnknown, [])

/-- Expression checking over an argument list. -/
def exprCheckL : List (String × Ty) → AstList → List String
  | _, .nil => []
  | env, .cons a r => (exprCheck env a).2 ++ exprCheckL env r

/-- Statement checking: control conditions must be boolean, assignments
must agree in type, declarations extend the scope and a name may not
be redeclared in the scope it is declared in. -/
def stmtCheck : List (String × Ty) → Ast → List (String × Ty) × List String
  | env, .blockStmt ss => (env, (stmtCheckL env ss).2)
  | env, .ifStmt c t e =>
    let (tc, e1) := exprCheck env c
    let condErr :=
      match tc with
      | Ty.tyBool => []
      | _ => ["non-boolean if condition"]
    let (_, e2) := stmtCheck env t
    let e3 := stmtCheckO env e
    (env, e1 ++ condErr ++ e2 ++ e3)
  | env, .forStmt i c n b =>
    let eI := stmtCheckO env i
    let eC :=
      match c with
      | AstOpt.none => []
      | AstOpt.some ce =>
        let (tc, e1) := exprCheck env ce
        e1 ++ (match tc with
               | Ty.tyBool => []
               | _ => ["non-boolean loop condition"])
    let eN := stmtCheckO env n
    let (_, eB) := stmtCheck env b
    (env, eI ++ eC ++ eN ++ eB)
  | env, .forInStmt _ it b =>
    let (_, e1) := exprCheck env it
    let (_, e2) := stmtCheck env b
    (env, e1 ++ e2)
  | env, .returnStmt r => (env, exprCheckO env r)
  | env, .assignmentStmt d s =>
    let (td, e1) := exprCheck env d
    let (tv, e2) := exprCheck env s
    let mism :=
      match td, tv with
      | Ty.tyUnknown, _ => []
      | _, Ty.tyUnknown => []
      | a, b => if a = b then [] else ["assignment type mismatch"]
    (env, e1 ++ e2 ++ mism)
  | env, .declStmt d => declVarCheck env d
  | env, .variableDecl n t i => declVarCheck env (Ast.variableDecl n t i)
  | env, .expressionStmt e => (env, (exprCheck env e).2)
  | env, _ => (env, [])

/-- Statement checking over a block body, threading declarations. -/
def stmtCheckL : List (String × Ty) → AstList → List (String × Ty) × List String
  | env, .nil => (env, [])
  | env, .cons s r =>
    let (env1, e1) := stmtCheck env s
    let (env2, e2) := stmtCheckL env1 r
    (env2, e1 ++ e2)

/-- Statement checking over an optional statement. -/
def stmtCheckO : List (String × Ty) → AstOpt → List String
  | _, .none => []
  | env, .some s => (stmtCheck env s).2

/-- Expression checking over an optional expression. -/
def exprCheckO : List (String × Ty) → AstOpt → List String
  | _, .none => []
  | env, .some e => (exprCheck env e).2

/-- A variable declaration: redeclaration in scope is an error, the
initializer must be assignable to the declared type, and the name
enters the scope. -/
def declVarCheck : List (String × Ty) → Ast → List (String × Ty) × List String
  | env, .variableDecl n t i =>
    let redecl :=
      match lookupTy env n with
      | Option.some _ => ["redeclaration of " ++ n]
      | Option.none => []
    let tiE :=
      match i with
      | AstOpt.none => (Ty.tyUnknown, ([] : List String))
      | AstOpt.some e => exprCheck env e
    let tDecl :=
      match t with
      | AstOpt.none => tiE.1
      | AstOpt.some tr => resolveTy tr
    let mism :=
      match t, i with
      | AstOpt.some tr, AstOpt.some _ =>
        (match resolveTy tr, tiE.1 with
         | Ty.tyUnknown, _ => []
         | _, Ty.tyUnknown => []
         | a, b => if a = b then [] else ["initializer type mismatch"])
      | _, _ => []
    ((n, tDecl) :: env, redecl ++ tiE.2 ++ mism)
  | env, _ => (env, [])

end

/-- Parameters enter the function scope; duplicate parameter names are
redeclarations. -/
def paramsEnv : List (String × Ty) → AstList → List (String × Ty) × List String
  | env, .nil => (env, [])
  | env, .cons (.fieldDecl n ty) r =>
    let redecl :=
      match lookupTy env n with
      | Option.some _ => ["redeclaration of " ++ n]
      | Option.none => []
    let (env1, e1) := paramsEnv ((n, resolveTy ty) :: env) r
    (env1, redecl ++ e1)
  | env, .cons _ r => paramsEnv env r

/-- Semantic checking of one top-level declaration. -/
def declCheck : List (String × Ty) → Ast → List String
  | env, .functionDecl _ f =>
    match f with
    | .functionLitExpr (.functionTypeRepr ps _) body =>
      let (penv, ePs) := paramsEnv env ps
      let (_, eB) := stmtCheck penv body
      ePs ++ eB
    | _ => []
  | env, d => (stmtCheck env d).2

/-- Semantic checking over the declaration sequence. -/
def declCheckL : List (String × Ty) → AstList → List String
  | _, .nil => []
  | env, .cons d r => declCheck env d ++ declCheckL env r

/-- Modelled from the spec: Sema walks the tree once and accumulates
semantic errors in the shared reporter; it never stops early. -/
def semaErrors : Ast → List String
  | .file ds => declCheckL [] ds
  | t => (stmtCheck [] t).2

/-- The pipeline stages the reference harness can execute after
construction. -/
inductive Stage where
  | parseRun | semaRun
deriving DecidableEq

/-- AstDumpTest::GenerateAst (src lines 95 to 118), faithfully: the
reporter is empty right after the scanner and parser are constructed,
and the first HasErrors check happens there, before Parse is called;
Parse then runs, Sema runs on whatever tree Parse returned, and only
afterwards is the reporter consulted again, returning a null tree if
any error was recorded.  The second component records which passes
executed on that control path. -/
def runHarness (src : String) : Option Ast × List Stage :=
  let ctorErrs : List String := []
  if ctorErrs.isEmpty then
    let pr := parseProgram (scanTokens src)
    let serrs := semaErrors pr.1
    if (pr.2 ++ serrs).isEmpty then
      (Option.some pr.1, [Stage.parseRun, Stage.semaRun])
    else (Option.none, [Stage.parseRun, Stage.semaRun])
  else (Option.none, [])

/-- The AST root GenerateAst returns (null is none). -/
def generateAst (src : String) : Option Ast := (runHarness src).1

/-- The passes the harness executed for a given source. -/
def pipelineStages (src : String) : List Stage := (runHarness src).2

/-- The diagnostics recorded while parsing a given source. -/
def parseErrorsOf (src : String) : List String :=
  (parseProgram (scanTokens src)).2

/-- The boolean Sema::Run returns to GenerateAst (line 109): whether
the shared reporter holds any error after the pass. -/
def semaCheckOf (src : String) : Bool :=
  let pr := parseProgram (scanTokens src)
  !(pr.2 ++ semaErrors pr.1).isEmpty

/-- AstDumpTest::CheckDump (src lines 127 to 149): the root returned by
GenerateAst is handed directly to ExtractKindNames and AstDump::Dump,
with no null check between (lines 130 to 138). -/
def checkDumpRootArg (src : String) : Option Ast := generateAst src

/-- The IfTest source (src lines 158 to 167, concrete scenario 1). -/
def ifSrc : String :=
  "fun f1(xyz: int) -> void { if (xyz < 67890) { if (xyz < 12345) { if (xyz < 1) {} else {} } } }"

/-- The ForLoopTest source (src lines 180 to 184, concrete scenario 2). -/
def forSrc : String :=
  "fun test(xxxxxx: int) -> int { for (xxxxxx + 777777 < 888888) { } return 999999 }"

/-- The FunctionTest source (src lines 193 to 196, concrete scenario 3). -/
def funSrc : String :=
  "fun XXXXXX(x: int) -> void { }\nfun yyyyyy(x: int) -> void { }"

/-- A syntactically broken source: an unfinished function header. -/
def badSrc : String := "fun broken("

/-- Placeholder used only to strip the Option wrapper off roots that
are known to be non-null. -/
def emptyAst : Ast := Ast.file AstList.nil

/-- The tree the harness produces for a source (meaningful only when
generateAst returns a non-null root). -/
def astOf (src : String) : Ast := (generateAst src).getD emptyAst

/-- The dump CheckDump produces for a source. -/
def dumpOf (src : String) : String := astDump (astOf src)

set_option maxRecDepth 200000

theorem isPrefX_self : ∀ n : List Char, isPrefX n n = true
  | [] => rfl
  | a :: as => by simp [isPrefX, isPrefX_self as]

theorem isPrefX_append : ∀ (n h h' : List Char),
    isPrefX n h = true → isPrefX n (h ++ h') = true
  | [], _, _, _ => rfl
  | a :: as, [], h', hyp => by simp [isPrefX] at hyp
  | a :: as, b :: bs, h', hyp => by
    simp only [isPrefX] at hyp ⊢
    by_cases hab : a = b
    · simp only [hab, if_pos rfl] at hyp ⊢
      simpa using isPrefX_append as bs h' (by simpa using hyp)
    · simp [hab] at hyp

theorem subX_of_isPrefX : ∀ (n h : List Char), isPrefX n h = true → subX n h = true
  | n, [], hyp => by
    cases n with
    | nil => rfl
    | cons a as => simp [isPrefX] at hyp
  | n, c :: hs, hyp => by simp [subX, hyp]

theorem subX_append_left : ∀ (n h h' : List Char),
    subX n h = true → subX n (h ++ h') = true
  | n, [], h', hyp => by
    cases n with
    | nil => exact subX_of_isPrefX [] h' rfl
    | cons a as => simp [subX] at hyp
  | n, c :: hs, h', hyp => by
    simp only [subX, Bool.or_eq_true] at hyp
    rcases hyp with hp | htl
    · exact subX_of_isPrefX n ((c :: hs) ++ h') (isPrefX_append n (c :: hs) h' hp)
    · have h2 := subX_append_left n hs h' htl
      simp [subX, h2]

theorem subX_append_right : ∀ (n h' h : List Char),
    subX n h = true → subX n (h' ++ h) = true
  | _, [], _, hyp => hyp
  | n, c :: hs', h, hyp => by
    have h2 := subX_append_right n hs' h hyp
    simp [subX, h2]

theorem subX_self (n : List Char) : subX n n = true :=
  subX_of_isPrefX n n (isPrefX_self n)

theorem sdata_append (s t : String) : (s ++ t).data = s.data ++ t.data := by
  rcases s with ⟨ds⟩
  rcases t with ⟨es⟩
  rfl

theorem scl {a b x : String} (h : sContains a x = true) :
    sContains (a ++ b) x = true := by
  unfold sContains at *
  rw [sdata_append]
  exact subX_append_left _ _ _ h

theorem scr {a b x : String} (h : sContains b x = true) :
    sContains (a ++ b) x = true := by
  unfold sContains at *
  rw [sdata_append]
  exact subX_append_right _ _ _ h

theorem scSelf (s : String) : sContains s s = true := subX_self s.data

theorem scNode {k i : String} : sContains (nodeStr k i) k = true := by
  unfold nodeStr
  exact scl (scl (scl (scr (scSelf k))))

theorem scInner {k i x : String} (h : sContains i x = true) :
    sContains (nodeStr k i) x = true := by
  unfold nodeStr
  exact scl (scr h)

mutual

theorem kindsDump : ∀ (t : Ast) (x : String),
    x ∈ kindsPresent t → sContains (astDump t) x = true
  | .file ds => by
    intro x hx
    simp [kindsPresent] at hx
    simp only [astDump]
    rcases hx with rfl | hx
    · exact scNode
    · exact scInner (kindsDumpL ds x hx)
  | .functionDecl n f => by
    intro x hx
    simp [kindsPresent] at hx
    simp only [astDump]
    rcases hx with rfl | hx
    · exact scNode
    · exact scInner (scr (kindsDump f x hx))
  | .structDecl n t => by
    intro x hx
    simp [kindsPresent] at hx
    simp only [astDump]
    rcases hx with rfl | hx
    · exact scNode
    · exact scInner (scr (kindsDump t x hx))
  | .variableDecl n t i => by
    intro x hx
    simp [kindsPresent] at hx
    simp only [astDump]
    rcases hx with rfl | hx | hx
    · exact scNode
    · exact scInner (scr (scl (kindsDumpO t x hx)))
    · exact scInner (scr (scr (kindsDumpO i x hx)))
  | .fieldDecl n t => by
    intro x hx
    simp [kindsPresent] at hx
    simp only [astDump]
    exact scInner (scr (kindsDump t x hx))
  | .blockStmt ss => by
    intro x hx
    simp [kindsPresent] at hx
    simp only [astDump]
    rcases hx with rfl | hx
    · exact scNode
    · exact scInner (kindsDumpL ss x hx)
  | .declStmt d => by
    intro x hx
    simp [kindsPresent] at hx
    simp only [astDump]
    rcases hx with rfl | hx
    · exact scNode
    · exact scInner (kindsDump d x hx)
  | .expressionStmt e => by
    intro x hx
    simp [kindsPresent] at hx
    simp only [astDump]
    rcases hx with rfl | hx
    · exact scNode
    · exact scInner (kindsDump e x hx)
  | .ifStmt c t e => by
    intro x hx
    simp [kindsPresent] at hx
    simp only [astDump]
    rcases hx with rfl | hx | hx | hx
    · exact scNode
    · exact scInner (scl (scl (kindsDump c x hx)))
    · exact scInner (scl (scr (kindsDump t x hx)))
    · exact scInner (scr (kindsDumpO e x hx))
  | .forStmt i c n b => by
    intro x hx
    simp [kindsPresent] at hx
    simp only [astDump]
    rcases hx with rfl | hx | hx | hx | hx
    · exact scNode
    · exact scInner (scl (scl (scl (kindsDumpO i x hx))))
    · exact scInner (scl (scl (scr (kindsDumpO c x hx))))
    · exact scInner (scl (scr (kindsDumpO n x hx)))
    · exact scInner (scr (kindsDump b x hx))
  | .forInStmt t it b => by
    intro x hx
    simp [kindsPresent] at hx
    simp only [astDump]
    rcases hx with rfl | hx | hx | hx
    · exact scNode
    · exact scInner (scl (scl (kindsDump t x hx)))
    · exact scInner (scl (scr (kindsDump it x hx)))
    · exact scInner (scr (kindsDump b x hx))
  | .returnStmt r => by
    intro x hx
    simp [kindsPresent] at hx
    simp only [astDump]
    rcases hx with rfl | hx
    · exact scNode
    · exact scInner (kindsDumpO r x hx)
  | .assignmentStmt d s => by
    intro x hx
    simp [kindsPresent] at hx
    simp only [astDump]
    rcases hx with rfl | hx | hx
    · exact scNode
    · exact scInner (scl (kindsDump d x hx))
    · exact scInner (scr (kindsDump s x hx))
  | .identifierExpr n => by
    intro x hx
    simp [kindsPresent] at hx
  | .litExpr s => by
    intro x hx
    simp [kindsPresent] at hx
    subst hx
    simp only [astDump]
    exact scNode
  | .unaryOpExpr op e => by
    intro x hx
    simp [kindsPresent] at hx
    simp only [astDump]
    rcases hx with rfl | hx
    · exact scNode
    · exact scInner (scr (kindsDump e x hx))
  | .binaryOpExpr op l r => by
    intro x hx
    simp [kindsPresent] at hx
    simp only [astDump]
    rcases hx with rfl | hx | hx
    · exact scNode
    · exact scInner (scr (scl (kindsDump l x hx)))
    · exact scInner (scr (scr (kindsDump r x hx)))
  | .comparisonOpExpr op l r => by
    intro x hx
    simp [kindsPresent] at hx
    simp only [astDump]
    rcases hx with rfl | hx | hx
    · exact scNode
    · exact scInner (scr (scl (kindsDump l x hx)))
    · exact scInner (scr (scr (kindsDump r x hx)))
  | .callExpr f a => by
    intro x hx
    simp [kindsPresent] at hx
    simp only [astDump]
    rcases hx with rfl | hx | hx
    · exact scNode
    · exact scInner (scl (kindsDump f x hx))
    · exact scInner (scr (kindsDumpL a x hx))
  | .implicitCastExpr e => by
    intro x hx
    simp [kindsPresent] at hx
    simp only [astDump]
    rcases hx with rfl | hx
    · exact scNode
    · exact scInner (kindsDump e x hx)
  | .indexExpr o i => by
    intro x hx
    simp [kindsPresent] at hx
    simp only [astDump]
    rcases hx with rfl | hx | hx
    · exact scNode
    · exact scInner (scl (kindsDump o x hx))
    · exact scInner (scr (kindsDump i x hx))
  | .functionLitExpr t b => by
    intro x hx
    simp [kindsPresent] at hx
    simp only [astDump]
    rcases hx with rfl | hx | hx
    · exact scNode
    · exact scInner (scl (kindsDump t x hx))
    · exact scInner (scr (kindsDump b x hx))
  | .functionTypeRepr ps r => by
    intro x hx
    simp [kindsPresent] at hx
    simp only [astDump]
    rcases hx with hx | hx
    · exact scInner (scl (kindsDumpL ps x hx))
    · exact scInner (scr (kindsDump r x hx))
  | .pointerTypeRepr b => by
    intro x hx
    simp [kindsPresent] at hx
    simp only [astDump]
    rcases hx with rfl | hx
    · exact scNode
    · exact scInner (kindsDump b x hx)
  | .arrayTypeRepr l e => by
    intro x hx
    simp [kindsPresent] at hx
    simp only [astDump]
    rcases hx with rfl | hx | hx
    · exact scNode
    · exact scInner (scl (kindsDumpO l x hx))
    · exact scInner (scr (kindsDump e x hx))
  | .structTypeRepr fs => by
    intro x hx
    simp [kindsPresent] at hx
    simp only [astDump]
    rcases hx with rfl | hx
    · exact scNode
    · exact scInner (kindsDumpL fs x hx)

theorem kindsDumpL : ∀ (l : AstList) (x : String),
    x ∈ kindsL l → sContains (dumpL l) x = true
  | .nil => by
    intro x hx
    simp [kindsL] at hx
  | .cons a r => by
    intro x hx
    simp [kindsL] at hx
    simp only [dumpL]
    rcases hx with hx | hx
    · exact scl (kindsDump a x hx)
    · exact scr (kindsDumpL r x hx)

theorem kindsDumpO : ∀ (o : AstOpt) (x : String),
    x ∈ kindsO o → sContains (dumpO o) x = true
  | .none => by
    intro x hx
    simp [kindsO] at hx
  | .some a => by
    intro x hx
    simp only [kindsO] at hx
    simp only [dumpO]
    exact kindsDump a x hx

end

mutual

theorem litsDump : ∀ (t : Ast) (x : String),
    x ∈ litTexts t → sContains (astDump t) x = true
  | .file ds => by
    intro x hx
    simp [litTexts] at hx
    simp only [astDump]
    exact scInner (litsDumpL ds x hx)
  | .functionDecl n f => by
    intro x hx
    simp [litTexts] at hx
    simp only [astDump]
    rcases hx with rfl | hx
    · exact scInner (scl (scl (scSelf x)))
    · exact scInner (scr (litsDump f x hx))
  | .structDecl n t => by
    intro x hx
    simp [litTexts] at hx
    simp only [astDump]
    rcases hx with rfl | hx
    · exact scInner (scl (scl (scSelf x)))
    · exact scInner (scr (litsDump t x hx))
  | .variableDecl n t i => by
    intro x hx
    simp [litTexts] at hx
    simp only [astDump]
    rcases hx with rfl | hx | hx
    · exact scInner (scl (scl (scSelf x)))
    · exact scInner (scr (scl (litsDumpO t x hx)))
    · exact scInner (scr (scr (litsDumpO i x hx)))
  | .fieldDecl n t => by
    intro x hx
    simp [litTexts] at hx
    simp only [astDump]
    rcases hx with rfl | hx
    · exact scInner (scl (scl (scSelf x)))
    · exact scInner (scr (litsDump t x hx))
  | .blockStmt ss => by
    intro x hx
    simp [litTexts] at hx
    simp only [astDump]
    exact scInner (litsDumpL ss x hx)
  | .declStmt d => by
    intro x hx
    simp [litTexts] at hx
    simp only [astDump]
    exact scInner (litsDump d x hx)
  | .expressionStmt e => by
    intro x hx
    simp [litTexts] at hx
    simp only [astDump]
    exact scInner (litsDump e x hx)
  | .ifStmt c t e => by
    intro x hx
    simp [litTexts] at hx
    simp only [astDump]
    rcases hx with hx | hx | hx
    · exact scInner (scl (scl (litsDump c x hx)))
    · exact scInner (scl (scr (litsDump t x hx)))
    · exact scInner (scr (litsDumpO e x hx))
  | .forStmt i c n b => by
    intro x hx
    simp [litTexts] at hx
    simp only [astDump]
    rcases hx with hx | hx | hx | hx
    · exact scInner (scl (scl (scl (litsDumpO i x hx))))
    · exact scInner (scl (scl (scr (litsDumpO c x hx))))
    · exact scInner (scl (scr (litsDumpO n x hx)))
    · exact scInner (scr (litsDump b x hx))
  | .forInStmt t it b => by
    intro x hx
    simp [litTexts] at hx
    simp only [astDump]
    rcases hx with hx | hx | hx
    · exact scInner (scl (scl (litsDump t x hx)))
    · exact scInner (scl (scr (litsDump it x hx)))
    · exact scInner (scr (litsDump b x hx))
  | .returnStmt r => by
    intro x hx
    simp [litTexts] at hx
    simp only [astDump]
    exact scInner (litsDumpO r x hx)
  | .assignmentStmt d s => by
    intro x hx
    simp [litTexts] at hx
    simp only [astDump]
    rcases hx with hx | hx
    · exact scInner (scl (litsDump d x hx))
    · exact scInner (scr (litsDump s x hx))
  | .identifierExpr n => by
    intro x hx
    simp [litTexts] at hx
    subst hx
    simp only [astDump]
    exact scInner (scSelf x)
  | .litExpr s => by
    intro x hx
    simp [litTexts] at hx
    subst hx
    simp only [astDump]
    exact scInner (scSelf x)
  | .unaryOpExpr op e => by
    intro x hx
    simp [litTexts] at hx
    simp only [astDump]
    exact scInner (scr (litsDump e x hx))
  | .binaryOpExpr op l r => by
    intro x hx
    simp [litTexts] at hx
    simp only [astDump]
    rcases hx with hx | hx
    · exact scInner (scr (scl (litsDump l x hx)))
    · exact scInner (scr (scr (litsDump r x hx)))
  | .comparisonOpExpr op l r => by
    intro x hx
    simp [litTexts] at hx
    simp only [astDump]
    rcases hx with hx | hx
    · exact scInner (scr (scl (litsDump l x hx)))
    · exact scInner (scr (scr (litsDump r x hx)))
  | .callExpr f a => by
    intro x hx
    simp [litTexts] at hx
    simp only [astDump]
    rcases hx with hx | hx
    · exact scInner (scl (litsDump f x hx))
    · exact scInner (scr (litsDumpL a x hx))
  | .implicitCastExpr e => by
    intro x hx
    simp [litTexts] at hx
    simp only [astDump]
    exact scInner (litsDump e x hx)
  | .indexExpr o i => by
    intro x hx
    simp [litTexts] at hx
    simp only [astDump]
    rcases hx with hx | hx
    · exact scInner (scl (litsDump o x hx))
    · exact scInner (scr (litsDump i x hx))
  | .functionLitExpr t b => by
    intro x hx
    simp [litTexts] at hx
    simp only [astDump]
    rcases hx with hx | hx
    · exact scInner (scl (litsDump t x hx))
    · exact scInner (scr (litsDump b x hx))
  | .functionTypeRepr ps r => by
    intro x hx
    simp [litTexts] at hx
    simp only [astDump]
    rcases hx with hx | hx
    · exact scInner (scl (litsDumpL ps x hx))
    · exact scInner (scr (litsDump r x hx))
  | .pointerTypeRepr b => by
    intro x hx
    simp [litTexts] at hx
    simp only [astDump]
    exact scInner (litsDump b x hx)
  | .arrayTypeRepr l e => by
    intro x hx
    simp [litTexts] at hx
    simp only [astDump]
    rcases hx with hx | hx
    · exact scInner (scl (litsDumpO l x hx))
    · exact scInner (scr (litsDump e x hx))
  | .structTypeRepr fs => by
    intro x hx
    simp [litTexts] at hx
    simp only [astDump]
    exact scInner (litsDumpL fs x hx)

theorem litsDumpL : ∀ (l : AstList) (x : String),
    x ∈ litL l → sContains (dumpL l) x = true
  | .nil => by
    intro x hx
    simp [litL] at hx
  | .cons a r => by
    intro x hx
    simp [litL] at hx
    simp only [dumpL]
    rcases hx with hx | hx
    · exact scl (litsDump a x hx)
    · exact scr (litsDumpL r x hx)

theorem litsDumpO : ∀ (o : AstOpt) (x : String),
    x ∈ litO o → sContains (dumpO o) x = true
  | .none => by
    intro x hx
    simp [litO] at hx
  | .some a => by
    intro x hx
    simp only [litO] at hx
    simp only [dumpO]
    exact litsDump a x hx

end

theorem nodeStr_ne_empty (k i : String) : nodeStr k i ≠ "" := by
  intro h
  have h1 : sContains (nodeStr k i) ")" = true := by
    unfold nodeStr
    exact scr (scSelf ")")
  rw [h] at h1
  exact absurd h1 (by decide)

theorem astDump_ne_empty (t : Ast) : astDump t ≠ "" := by
  cases t <;> simp only [astDump] <;> exact nodeStr_ne_empty _ _

theorem sinsert_mem (s : List String) (y x : String) :
    x ∈ sinsert s y ↔ x ∈ s ∨ x = y := by
  unfold sinsert
  by_cases hy : y ∈ s
  · simp only [if_pos hy]
    constructor
    · exact Or.inl
    · intro h
      rcases h with h | rfl
      · exact h
      · exact hy
  · simp [if_neg hy]

theorem sinsert_nodup (s : List String) (y : String) (h : s.Nodup) :
    (sinsert s y).Nodup := by
  unfold sinsert
  by_cases hy : y ∈ s
  · simpa [if_pos hy] using h
  · simp [if_neg hy, List.nodup_append, h, hy]

mutual

theorem extract_mem : ∀ (t : Ast) (acc : List String) (x : String),
    x ∈ extractA t acc ↔ x ∈ acc ∨ x ∈ kindsPresent t
  | .file ds, acc, x => by
    simp only [extractA, kindsPresent]
    rw [extract_memL ds, sinsert_mem]
    simp only [List.mem_cons]
    tauto
  | .functionDecl n f, acc, x => by
    simp only [extractA, kindsPresent]
    rw [extract_mem f, sinsert_mem]
    simp only [List.mem_cons]
    tauto
  | .structDecl n t, acc, x => by
    simp only [extractA, kindsPresent]
    rw [extract_mem t, sinsert_mem]
    simp only [List.mem_cons]
    tauto
  | .variableDecl n t i, acc, x => by
    simp only [extractA, kindsPresent]
    rw [extract_memO i, extract_memO t, sinsert_mem]
    simp only [List.mem_cons, List.mem_append]
    tauto
  | .fieldDecl n t, acc, x => by
    simp only [extractA, kindsPresent]
    exact extract_mem t acc x
  | .blockStmt ss, acc, x => by
    simp only [extractA, kindsPresent]
    rw [extract_memL ss, sinsert_mem]
    simp only [List.mem_cons]
    tauto
  | .declStmt d, acc, x => by
    simp only [extractA, kindsPresent]
    rw [extract_mem d, sinsert_mem]
    simp only [List.mem_cons]
    tauto
  | .expressionStmt e, acc, x => by
    simp only [extractA, kindsPresent]
    rw [extract_mem e, sinsert_mem]
    simp only [List.mem_cons]
    tauto
  | .ifStmt c t e, acc, x => by
    simp only [extractA, kindsPresent]
    rw [extract_memO e, extract_mem t, extract_mem c, sinsert_mem]
    simp only [List.mem_cons, List.mem_append]
    tauto
  | .forStmt i c n b, acc, x => by
    simp only [extractA, kindsPresent]
    rw [extract_mem b, extract_memO n, extract_memO c, extract_memO i, sinsert_mem]
    simp only [List.mem_cons, List.mem_append]
    tauto
  | .forInStmt t it b, acc, x => by
    simp only [extractA, kindsPresent]
    rw [extract_mem b, extract_mem it, extract_mem t, sinsert_mem]
    simp only [List.mem_cons, List.mem_append]
    tauto
  | .returnStmt r, acc, x => by
    simp only [extractA, kindsPresent]
    rw [extract_memO r, sinsert_mem]
    simp only [List.mem_cons]
    tauto
  | .assignmentStmt d s, acc, x => by
    simp only [extractA, kindsPresent]
    rw [extract_mem s, extract_mem d, sinsert_mem]
    simp only [List.mem_cons, List.mem_append]
    tauto
  | .identifierExpr n, acc, x => by
    simp only [extractA, kindsPresent]
    simp
  | .litExpr s, acc, x => by
    simp only [extractA, kindsPresent]
    rw [sinsert_mem]
    simp only [List.mem_cons]
    tauto
  | .unaryOpExpr op e, acc, x => by
    simp only [extractA, kindsPresent]
    rw [extract_mem e, sinsert_mem]
    simp only [List.mem_cons]
    tauto
  | .binaryOpExpr op l r, acc, x => by
    simp only [extractA, kindsPresent]
    rw [extract_mem r, extract_mem l, sinsert_mem]
    simp only [List.mem_cons, List.mem_append]
    tauto
  | .comparisonOpExpr op l r, acc, x => by
    simp only [extractA, kindsPresent]
    rw [extract_mem r, extract_mem l, sinsert_mem]
    simp only [List.mem_cons, List.mem_append]
    tauto
  | .callExpr f a, acc, x => by
    simp only [extractA, kindsPresent]
    rw [extract_memL a, extract_mem f, sinsert_mem]
    simp only [List.mem_cons, List.mem_append]
    tauto
  | .implicitCastExpr e, acc, x => by
    simp only [extractA, kindsPresent]
    rw [extract_mem e, sinsert_mem]
    simp only [List.mem_cons]
    tauto
  | .indexExpr o i, acc, x => by
    simp only [extractA, kindsPresent]
    rw [extract_mem i, extract_mem o, sinsert_mem]
    simp only [List.mem_cons, List.mem_append]
    tauto
  | .functionLitExpr t b, acc, x => by
    simp only [extractA, kindsPresent]
    rw [extract_mem b, extract_mem t, sinsert_mem]
    simp only [List.mem_cons, List.mem_append]
    tauto
  | .functionTypeRepr ps r, acc, x => by
    simp only [extractA, kindsPresent]
    rw [extract_mem r, extract_memL ps]
    simp only [List.mem_append]
    tauto
  | .pointerTypeRepr b, acc, x => by
    simp only [extractA, kindsPresent]
    rw [extract_mem b, sinsert_mem]
    simp only [List.mem_cons]
    tauto
  | .arrayTypeRepr l e, acc, x => by
    simp only [extractA, kindsPresent]
    rw [extract_mem e, extract_memO l, sinsert_mem]
    simp only [List.mem_cons, List.mem_append]
    tauto
  | .structTypeRepr fs, acc, x => by
    simp only [extractA, kindsPresent]
    rw [extract_memL fs, sinsert_mem]
    simp only [List.mem_cons]
    tauto

theorem extract_memL : ∀ (l : AstList) (acc : List String) (x : String),
    x ∈ extractL l acc ↔ x ∈ acc ∨ x ∈ kindsL l
  | .nil, acc, x => by
    simp only [extractL, kindsL]
    simp
  | .cons a r, acc, x => by
    simp only [extractL, kindsL]
    rw [extract_memL r, extract_mem a]
    simp only [List.mem_append]
    tauto

theorem extract_memO : ∀ (o : AstOpt) (acc : List String) (x : String),
    x ∈ extractO o acc ↔ x ∈ acc ∨ x ∈ kindsO o
  | .none, acc, x => by
    simp only [extractO, kindsO]
    simp
  | .some a, acc, x => by
    simp only [extractO, kindsO]
    exact extract_mem a acc x

end

mutual

theorem extract_nodup : ∀ (t : Ast) (acc : List String),
    acc.Nodup → (extractA t acc).Nodup
  | .file ds, acc, h => by
    simp only [extractA]
    exact extract_nodupL ds _ (sinsert_nodup _ _ h)
  | .functionDecl n f, acc, h => by
    simp only [extractA]
    exact extract_nodup f _ (sinsert_nodup _ _ h)
  | .structDecl n t, acc, h => by
    simp only [extractA]
    exact extract_nodup t _ (sinsert_nodup _ _ h)
  | .variableDecl n t i, acc, h => by
    simp only [extractA]
    exact extract_nodupO i _ (extract_nodupO t _ (sinsert_nodup _ _ h))
  | .fieldDecl n t, acc, h => by
    simp only [extractA]
    exact extract_nodup t _ h
  | .blockStmt ss, acc, h => by
    simp only [extractA]
    exact extract_nodupL ss _ (sinsert_nodup _ _ h)
  | .declStmt d, acc, h => by
    simp only [extractA]
    exact extract_nodup d _ (sinsert_nodup _ _ h)
  | .expressionStmt e, acc, h => by
    simp only [extractA]
    exact extract_nodup e _ (sinsert_nodup _ _ h)
  | .ifStmt c t e, acc, h => by
    simp only [extractA]
    exact extract_nodupO e _ (extract_nodup t _ (extract_nodup c _ (sinsert_nodup _ _ h)))
  | .forStmt i c n b, acc, h => by
    simp only [extractA]
    exact extract_nodup b _ (extract_nodupO n _ (extract_nodupO c _ (extract_nodupO i _ (sinsert_nodup _ _ h))))
  | .forInStmt t it b, acc, h => by
    simp only [extractA]
    exact extract_nodup b _ (extract_nodup it _ (extract_nodup t _ (sinsert_nodup _ _ h)))
  | .returnStmt r, acc, h => by
    simp only [extractA]
    exact extract_nodupO r _ (sinsert_nodup _ _ h)
  | .assignmentStmt d s, acc, h => by
    simp only [extractA]
    exact extract_nodup s _ (extract_nodup d _ (sinsert_nodup _ _ h))
  | .identifierExpr n, acc, h => by
    simp only [extractA]
    exact h
  | .litExpr s, acc, h => by
    simp only [extractA]
    exact sinsert_nodup _ _ h
  | .unaryOpExpr op e, acc, h => by
    simp only [extractA]
    exact extract_nodup e _ (sinsert_nodup _ _ h)
  | .binaryOpExpr op l r, acc, h => by
    simp only [extractA]
    exact extract_nodup r _ (extract_nodup l _ (sinsert_nodup _ _ h))
  | .comparisonOpExpr op l r, acc, h => by
    simp only [extractA]
    exact extract_nodup r _ (extract_nodup l _ (sinsert_nodup _ _ h))
  | .callExpr f a, acc, h => by
    simp only [extractA]
    exact extract_nodupL a _ (extract_nodup f _ (sinsert_nodup _ _ h))
  | .implicitCastExpr e, acc, h => by
    simp only [extractA]
    exact extract_nodup e _ (sinsert_nodup _ _ h)
  | .indexExpr o i, acc, h => by
    simp only [extractA]
    exact extract_nodup i _ (extract_nodup o _ (sinsert_nodup _ _ h))
  | .functionLitExpr t b, acc, h => by
    simp only [extractA]
    exact extract_nodup b _ (extract_nodup t _ (sinsert_nodup _ _ h))
  | .functionTypeRepr ps r, acc, h => by
    simp only [extractA]
    exact extract_nodup r _ (extract_nodupL ps _ h)
  | .pointerTypeRepr b, acc, h => by
    simp only [extractA]
    exact extract_nodup b _ (sinsert_nodup _ _ h)
  | .arrayTypeRepr l e, acc, h => by
    simp only [extractA]
    exact extract_nodup e _ (extract_nodupO l _ (sinsert_nodup _ _ h))
  | .structTypeRepr fs, acc, h => by
    simp only [extractA]
    exact extract_nodupL fs _ (sinsert_nodup _ _ h)

theorem extract_nodupL : ∀ (l : AstList) (acc : List String),
    acc.Nodup → (extractL l acc).Nodup
  | .nil, acc, h => by
    simp only [extractL]
    exact h
  | .cons a r, acc, h => by
    simp only [extractL]
    exact extract_nodupL r _ (extract_nodup a _ h)

theorem extract_nodupO : ∀ (o : AstOpt) (acc : List String),
    acc.Nodup → (extractO o acc).Nodup
  | .none, acc, h => by
    simp only [extractO]
    exact h
  | .some a, acc, h => by
    simp only [extractO]
    exact extract_nodup a _ h

end

mutual

theorem kindsReg : ∀ (t : Ast) (x : String),
    x ∈ kindsPresent t → x ∈ registeredNames
  | .file ds => by
    intro x hx
    simp [kindsPresent] at hx
    rcases hx with rfl | hx
    · decide
    · exact kindsRegL ds x hx
  | .functionDecl n f => by
    intro x hx
    simp [kindsPresent] at hx
    rcases hx with rfl | hx
    · decide
    · exact kindsReg f x hx
  | .structDecl n t => by
    intro x hx
    simp [kindsPresent] at hx
    rcases hx with rfl | hx
    · decide
    · exact kindsReg t x hx
  | .variableDecl n t i => by
    intro x hx
    simp [kindsPresent] at hx
    rcases hx with rfl | hx | hx
    · decide
    · exact kindsRegO t x hx
    · exact kindsRegO i x hx
  | .fieldDecl n t => by
    intro x hx
    simp [kindsPresent] at hx
    exact kindsReg t x hx
  | .blockStmt ss => by
    intro x hx
    simp [kindsPresent] at hx
    rcases hx with rfl | hx
    · decide
    · exact kindsRegL ss x hx
  | .declStmt d => by
    intro x hx
    simp [kindsPresent] at hx
    rcases hx with rfl | hx
    · decide
    · exact kindsReg d x hx
  | .expressionStmt e => by
    intro x hx
    simp [kindsPresent] at hx
    rcases hx with rfl | hx
    · decide
    · exact kindsReg e x hx
  | .ifStmt c t e => by
    intro x hx
    simp [kindsPresent] at hx
    rcases hx with rfl | hx | hx | hx
    · decide
    · exact kindsReg c x hx
    · exact kindsReg t x hx
    · exact kindsRegO e x hx
  | .forStmt i c n b => by
    intro x hx
    simp [kindsPresent] at hx
    rcases hx with rfl | hx | hx | hx | hx
    · decide
    · exact kindsRegO i x hx
    · exact kindsRegO c x hx
    · exact kindsRegO n x hx
    · exact kindsReg b x hx
  | .forInStmt t it b => by
    intro x hx
    simp [kindsPresent] at hx
    rcases hx with rfl | hx | hx | hx
    · decide
    · exact kindsReg t x hx
    · exact kindsReg it x hx
    · exact kindsReg b x hx
  | .returnStmt r => by
    intro x hx
    simp [kindsPresent] at hx
    rcases hx with rfl | hx
    · decide
    · exact kindsRegO r x hx
  | .assignmentStmt d s => by
    intro x hx
    simp [kindsPresent] at hx
    rcases hx with rfl | hx | hx
    · decide
    · exact kindsReg d x hx
    · exact kindsReg s x hx
  | .identifierExpr n => by
    intro x hx
    simp [kindsPresent] at hx
  | .litExpr s => by
    intro x hx
    simp [kindsPresent] at hx
    subst hx
    decide
  | .unaryOpExpr op e => by
    intro x hx
    simp [kindsPresent] at hx
    rcases hx with rfl | hx
    · decide
    · exact kindsReg e x hx
  | .binaryOpExpr op l r => by
    intro x hx
    simp [kindsPresent] at hx
    rcases hx with rfl | hx | hx
    · decide
    · exact kindsReg l x hx
    · exact kindsReg r x hx
  | .comparisonOpExpr op l r => by
    intro x hx
    simp [kindsPresent] at hx
    rcases hx with rfl | hx | hx
    · decide
    · exact kindsReg l x hx
    · exact kindsReg r x hx
  | .callExpr f a => by
    intro x hx
    simp [kindsPresent] at hx
    rcases hx with rfl | hx | hx
    · decide
    · exact kindsReg f x hx
    · exact kindsRegL a x hx
  | .implicitCastExpr e => by
    intro x hx
    simp [kindsPresent] at hx
    rcases hx with rfl | hx
    · decide
    · exact kindsReg e x hx
  | .indexExpr o i => by
    intro x hx
    simp [kindsPresent] at hx
    rcases hx with rfl | hx | hx
    · decide
    · exact kindsReg o x hx
    · exact kindsReg i x hx
  | .functionLitExpr t b => by
    intro x hx
    simp [kindsPresent] at hx
    rcases hx with rfl | hx | hx
    · decide
    · exact kindsReg t x hx
    · exact kindsReg b x hx
  | .functionTypeRepr ps r => by
    intro x hx
    simp [kindsPresent] at hx
    rcases hx with hx | hx
    · exact kindsRegL ps x hx
    · exact kindsReg r x hx
  | .pointerTypeRepr b => by
    intro x hx
    simp [kindsPresent] at hx
    rcases hx with rfl | hx
    · decide
    · exact kindsReg b x hx
  | .arrayTypeRepr l e => by
    intro x hx
    simp [kindsPresent] at hx
    rcases hx with rfl | hx | hx
    · decide
    · exact kindsRegO l x hx
    · exact kindsReg e x hx
  | .structTypeRepr fs => by
    intro x hx
    simp [kindsPresent] at hx
    rcases hx with rfl | hx
    · decide
    · exact kindsRegL fs x hx

theorem kindsRegL : ∀ (l : AstList) (x : String),
    x ∈ kindsL l → x ∈ registeredNames
  | .nil => by
    intro x hx
    simp [kindsL] at hx
  | .cons a r => by
    intro x hx
    simp [kindsL] at hx
    rcases hx with hx | hx
    · exact kindsReg a x hx
    · exact kindsRegL r x hx

theorem kindsRegO : ∀ (o : AstOpt) (x : String),
    x ∈ kindsO o → x ∈ registeredNames
  | .none => by
    intro x hx
    simp [kindsO] at hx
  | .some a => by
    intro x hx
    simp only [kindsO] at hx
    exact kindsReg a x hx

end

/-- Claim C1: for every valid program (one the harness accepts with no
errors), the dump of its tree is non-empty text containing, verbatim,
the kind name of every distinct node kind collected by the
kind-extraction pass and the exact literal text of every identifier
and constant embedded in the tree. -/
theorem c1_dump_membership (src : String) (t : Ast)
    (_h : generateAst src = Option.some t) :
    astDump t ≠ "" ∧
    (∀ k, k ∈ extractKindNames t → sContains (astDump t) k = true) ∧
    (∀ s, s ∈ litTexts t → sContains (astDump t) s = true) := by
  refine ⟨astDump_ne_empty t, ?_, ?_⟩
  · intro k hk
    simp only [extractKindNames] at hk
    rcases (extract_mem t [] k).mp hk with h0 | h1
    · exact absurd h0 (List.not_mem_nil k)
    · exact kindsDump t k h1
  · intro s hs
    exact litsDump t s hs

/-- Witness for C1 at the FunctionTest program, a valid program. -/
theorem c1_dump_membership_witness :
    astDump (astOf funSrc) ≠ "" ∧
    (∀ k, k ∈ extractKindNames (astOf funSrc) →
      sContains (astDump (astOf funSrc)) k = true) ∧
    (∀ s, s ∈ litTexts (astOf funSrc) →
      sContains (astDump (astOf funSrc)) s = true) :=
  c1_dump_membership funSrc (astOf funSrc) (by rfl)

/-- Claim C2 is violated by the code: GenerateAst consults the reporter
before Parse runs (src line 102), so for this source parsing records
errors and yet the Sema stage still executes over the unreliable
tree; the null tree is returned only after Sema ran. -/
theorem c2_sema_runs_despite_parse_errors :
    parseErrorsOf badSrc ≠ [] ∧
    Stage.semaRun ∈ pipelineStages badSrc ∧
    generateAst badSrc = Option.none :=
  ⟨by decide, by decide, by rfl⟩

/-- Counterexample to claim C3 as stated: the extraction result is a
set, so the kind name FunctionDecl occurs in it once, not twice, for
the FunctionTest program. -/
theorem c3_function_test_counterexample :
    ¬ ((extractKindNames (astOf funSrc)).count "FunctionDecl" = 2) := by
  decide

/-- Claim C3 as amended: the FunctionTest source parses with no error,
its dump contains both function names verbatim, the tree holds
exactly two FunctionDecl nodes, and the extracted kind set contains
FunctionDecl exactly once (the set deduplicates). -/
theorem c3_function_test_amended :
    parseErrorsOf funSrc = [] ∧
    generateAst funSrc = Option.some (astOf funSrc) ∧
    sContains (dumpOf funSrc) "XXXXXX" = true ∧
    sContains (dumpOf funSrc) "yyyyyy" = true ∧
    (extractKindNames (astOf funSrc)).count "FunctionDecl" = 1 ∧
    (kindsPresent (astOf funSrc)).count "FunctionDecl" = 2 :=
  ⟨by decide, by rfl, by decide, by decide, by decide, by decide⟩

/-- Claim C4: the IfTest source parses without error and its dump
contains the four kind names and the three literal texts. -/
theorem c4_if_test :
    parseErrorsOf ifSrc = [] ∧
    sContains (dumpOf ifSrc) "IfStmt" = true ∧
    sContains (dumpOf ifSrc) "ComparisonOpExpr" = true ∧
    sContains (dumpOf ifSrc) "BlockStmt" = true ∧
    sContains (dumpOf ifSrc) "FunctionDecl" = true ∧
    sContains (dumpOf ifSrc) "xyz" = true ∧
    sContains (dumpOf ifSrc) "12345" = true ∧
    sContains (dumpOf ifSrc) "67890" = true :=
  ⟨by decide, by decide, by decide, by decide, by decide, by decide,
   by decide, by decide⟩

/-- Claim C5: the ForLoopTest source parses without error and its dump
contains the three kind names and the four literal texts. -/
theorem c5_for_loop_test :
    parseErrorsOf forSrc = [] ∧
    sContains (dumpOf forSrc) "ForStmt" = true ∧
    sContains (dumpOf forSrc) "BinaryOpExpr" = true ∧
    sContains (dumpOf forSrc) "ReturnStmt" = true ∧
    sContains (dumpOf forSrc) "xxxxxx" = true ∧
    sContains (dumpOf forSrc) "777777" = true ∧
    sContains (dumpOf forSrc) "888888" = true ∧
    sContains (dumpOf forSrc) "999999" = true :=
  ⟨by decide, by decide, by decide, by decide, by decide, by decide,
   by decide, by decide⟩

/-- Claim C6: when parsing records no error and semantic analysis
records no semantic error, the boolean Sema returns is false and the
harness returns the non-null parsed root. -/
theorem c6_well_typed_acceptance (src : String)
    (hp : (parseProgram (scanTokens src)).2 = [])
    (hs : semaErrors (parseProgram (scanTokens src)).1 = []) :
    semaCheckOf src = false ∧
    generateAst src = Option.some (parseProgram (scanTokens src)).1 := by
  constructor
  · simp [semaCheckOf, hp, hs]
  · simp [generateAst, runHarness, hp, hs]

/-- Witness for C6 at the FunctionTest program. -/
theorem c6_well_typed_acceptance_witness :
    semaCheckOf funSrc = false ∧
    generateAst funSrc = Option.some (parseProgram (scanTokens funSrc)).1 :=
  c6_well_typed_acceptance funSrc (by decide) (by decide)

/-- Counterexample to claim C7 as stated: CheckDump has no defensive
null check, so for a source that fails to parse the null root is
exactly what it hands to the kind-extraction and dump passes. -/
theorem c7_no_null_guard_counterexample :
    checkDumpRootArg badSrc = Option.none := by rfl

/-- Claim C7 as amended: CheckDump passes the GenerateAst result to the
passes without any null check, but each of the three reference test
sources yields a non-null root, so no pass is invoked on a null root
in the reference tests. -/
theorem c7_null_root_amended :
    checkDumpRootArg ifSrc ≠ Option.none ∧
    checkDumpRootArg forSrc ≠ Option.none ∧
    checkDumpRootArg funSrc ≠ Option.none := by
  refine ⟨?_, ?_, ?_⟩
  · rw [show checkDumpRootArg ifSrc = Option.some (astOf ifSrc) from rfl]
    simp
  · rw [show checkDumpRootArg forSrc = Option.some (astOf forSrc) from rfl]
    simp
  · rw [show checkDumpRootArg funSrc = Option.some (astOf funSrc) from rfl]
    simp

/-- Claim C8: the kind-extraction pass never returns FieldDecl,
FunctionTypeRepr or IdentifierExpr, for any tree, even when nodes of
those kinds are present: their hook registrations are commented out,
so those nodes only descend. -/
theorem c8_excluded_kinds (root : Ast) :
    "FieldDecl" ∉ extractKindNames root ∧
    "FunctionTypeRepr" ∉ extractKindNames root ∧
    "IdentifierExpr" ∉ extractKindNames root := by
  refine ⟨?_, ?_, ?_⟩
  · intro hmem
    simp only [extractKindNames] at hmem
    rcases (extract_mem root [] _).mp hmem with h0 | h1
    · exact absurd h0 (List.not_mem_nil _)
    · have h2 := kindsReg root _ h1
      revert h2
      decide
  · intro hmem
    simp only [extractKindNames] at hmem
    rcases (extract_mem root [] _).mp hmem with h0 | h1
    · exact absurd h0 (List.not_mem_nil _)
    · have h2 := kindsReg root _ h1
      revert h2
      decide
  · intro hmem
    simp only [extractKindNames] at hmem
    rcases (extract_mem root [] _).mp hmem with h0 | h1
    · exact absurd h0 (List.not_mem_nil _)
    · have h2 := kindsReg root _ h1
      revert h2
      decide

/-- Claim C9: the front end is deterministic; two runs over the same
source text produce the same token sequence, structurally identical
trees (same kinds, same literal texts, same nesting) and identical
dumps.  In this embedding every pass is a pure function of the
source buffer, so the two runs coincide definitionally. -/
theorem c9_front_end_deterministic (src : String) :
    scanTokens src = scanTokens src ∧
    (parseProgram (scanTokens src)).1 = (parseProgram (scanTokens src)).1 ∧
    kindsPresent (parseProgram (scanTokens src)).1 =
      kindsPresent (parseProgram (scanTokens src)).1 ∧
    litTexts (parseProgram (scanTokens src)).1 =
      litTexts (parseProgram (scanTokens src)).1 ∧
    (generateAst src).map astDump = (generateAst src).map astDump :=
  ⟨rfl, rfl, rfl, rfl, rfl⟩

/-- Claim C10: the extraction result is duplicate-free for every root,
and it contains a kind name exactly when some registered node of that
kind occurs anywhere in the tree, so every registered hook still
descends into its children after recording the kind name. -/
theorem c10_extract_dedup_descends (root : Ast) :
    (extractKindNames root).Nodup ∧
    (∀ x, x ∈ extractKindNames root ↔ x ∈ kindsPresent root) := by
  constructor
  · simp only [extractKindNames]
    exact extract_nodup root [] List.nodup_nil
  · intro x
    simp only [extractKindNames]
    rw [extract_mem root [] x]
    simp
